import Mathlib

/-!
Verification of the A2A multi-workflow server (`a2a_multi_workflow_server.py`).

The dispatcher (`MultiWorkflowExecutor`) is embedded faithfully from the
source: Python string operations (`strip`, `split("|", 1)`, `replace`,
`in`, `startswith`) are re-implemented as executable Lean functions over
`List Char` with the same semantics.  The workflow pattern executors
(parallel, router, evaluator-optimizer) live in the external `fast_agent`
library and are modelled from the spec, each carrying the concrete
configuration declared in the source file.
-/

namespace A2A

/-- Python `str.strip`'s ASCII whitespace characters. -/
def isPySpace (c : Char) : Bool :=
  c = ' ' || c = '\t' || c = '\n' || c = '\r' || c = '\x0b' || c = '\x0c'

/-- Remove trailing whitespace (Python `rstrip` on the character list). -/
def dropTrail (l : List Char) : List Char :=
  (l.reverse.dropWhile isPySpace).reverse

/-- Remove leading and trailing whitespace (Python `str.strip`). -/
def trimList (l : List Char) : List Char :=
  dropTrail (l.dropWhile isPySpace)

/-- Python `str.strip` on strings. -/
def pyStrip (s : String) : String :=
  String.mk (trimList s.data)

/-- Python `c in s` membership test for a single character. -/
def containsChar (l : List Char) (c : Char) : Bool :=
  l.any (fun a => a == c)

/-- Python `s.startswith(pre)`. -/
def startsWithPy (s pre : String) : Bool :=
  pre.data.isPrefixOf s.data

/-- Python `s.split(sep, 1)` for a single-character separator: split at the
first occurrence, returning `none` when the separator does not occur. -/
def splitFirstAux (sep : Char) : List Char → Option (List Char × List Char)
  | [] => none
  | c :: cs =>
    if c = sep then some ([], cs)
    else
      match splitFirstAux sep cs with
      | none => none
      | some pr => some (c :: pr.1, pr.2)

/-- Python `s.replace(pat, "")`: delete every leftmost, non-overlapping
occurrence of `pat`, resuming the scan after each deleted occurrence.
`fuel` bounds the recursion; `s.length` fuel always suffices. -/
def deleteAllAux (pat : List Char) : Nat → List Char → List Char
  | _, [] => []
  | 0, s => s
  | fuel + 1, c :: cs =>
    if !pat.isEmpty && pat.isPrefixOf (c :: cs) then
      deleteAllAux pat fuel (List.drop pat.length (c :: cs))
    else
      c :: deleteAllAux pat fuel cs

/-- Python `s.replace(pat, "")` on strings. -/
def pyDeleteAll (s pat : String) : String :=
  String.mk (deleteAllAux pat.data s.data.length s.data)

/-- `pat` occurs as a contiguous substring. -/
def hasOcc (pat : List Char) : List Char → Bool
  | [] => pat.isPrefixOf []
  | c :: cs => pat.isPrefixOf (c :: cs) || hasOcc pat cs

/-- The message-parsing convention of `MultiWorkflowExecutor.execute`
(`a2a_multi_workflow_server.py`, lines 233-239): if `"|" in message and
message.startswith("workflow:")` then split at the first `|`, delete every
`"workflow:"` from the left part and strip it to get the workflow name, and
strip the right part to get the user message; otherwise the default
workflow `router_workflow` receives the whole message. -/
def parseMessage (message : String) : String × String :=
  if containsChar message.data '|' && startsWithPy message "workflow:" then
    match splitFirstAux '|' message.data with
    | some pr =>
      (pyStrip (pyDeleteAll (String.mk pr.1) "workflow:"), pyStrip (String.mk pr.2))
    | none => ("router_workflow", message)
  else
    ("router_workflow", message)

/-- The names registered on the FastAgent application in
`a2a_multi_workflow_server.py`, in declaration order: every `@fast.agent`
plus the five workflow declarations. -/
def serverRegistry : List String :=
  ["url_summarizer", "content_writer", "chaining_workflow",
   "proofreader", "fact_checker", "style_enforcer", "quality_grader",
   "parallel_workflow",
   "code_analyst", "web_researcher", "general_assistant", "router_workflow",
   "task_planner", "executor", "reviewer", "orchestrator_workflow",
   "content_generator", "quality_evaluator", "evaluator_optimizer_workflow",
   "simple_assistant"]

/-- `MultiWorkflowExecutor._workflow` (lines 210-219): return the agent for
`workflow_name` when registered, else the default `router_workflow` when
registered, else the first agent in registry iteration order.  Agents are
identified by their names. -/
def resolveWorkflow (agentsMap : List String) (workflow_name : String) : Option String :=
  if agentsMap.contains workflow_name then some workflow_name
  else if agentsMap.contains "router_workflow" then some "router_workflow"
  else agentsMap.head?

/-- Observable outcome of one `execute` call: the `(agent, input)` pairs
sent to workflow agents, and the texts enqueued on the event queue. -/
structure ExecOutcome where
  invoked : List (String × String)
  events : List String
deriving DecidableEq, Repr

/-- `MultiWorkflowExecutor.execute` (lines 221-247).  `appInit` models the
lazy FastAgent-runtime startup inside `_workflow` (an exception there is
caught by the same `try`); `send` models `agent.send`, with `Except.error`
standing for a raised exception.  The `try`/`except` is embedded by
totality: every failure becomes an `"Error in {workflow_name}: {e}"` text
event, never an escaping exception. -/
def execute (agentsMap : List String) (appInit : Except String Unit)
    (send : String → String → Except String String) (rawInput : String) : ExecOutcome :=
  let message := pyStrip rawInput
  if message = "" then ⟨[], []⟩
  else
    match appInit with
    | .error e => ⟨[], ["Error in " ++ (parseMessage message).1 ++ ": " ++ e]⟩
    | .ok _ =>
      match resolveWorkflow agentsMap (parseMessage message).1 with
      | none => ⟨[], ["Error in " ++ (parseMessage message).1 ++ ": "]⟩
      | some agent =>
        match send agent (parseMessage message).2 with
        | .ok resp => ⟨[(agent, (parseMessage message).2)], [resp]⟩
        | .error e =>
          ⟨[(agent, (parseMessage message).2)],
           ["Error in " ++ (parseMessage message).1 ++ ": " ++ e]⟩

/-- An agent behaviour that echoes its input. -/
def sendOK : String → String → Except String String := fun _ m => Except.ok m

/-- An agent behaviour that always raises. -/
def sendBoom : String → String → Except String String := fun _ _ => Except.error "boom"

/-- `Except` success test. -/
def isOkE : Except ε α → Bool
  | .ok _ => true
  | .error _ => false

/-- The success value of an `Except`, defaulting to `""`. -/
def okOr (r : Except ε String) : String :=
  match r with
  | .ok s => s
  | .error _ => ""

/-- Mutable state of a `MultiWorkflowExecutor`: the contexts entered on its
`AsyncExitStack` (most recently entered first) and the cached `AgentApp`
reference (identified by a runtime id). -/
structure ExecutorState where
  stack : List String
  agents : Option Nat
deriving DecidableEq, Repr

/-- `AsyncExitStack.aclose`: unwind every entered context, most recent
first, leaving the stack empty; returns the exited contexts in exit order
together with the remaining stack. -/
def aclose : List String → List String × List String
  | [] => ([], [])
  | c :: rest => (c :: (aclose rest).1, (aclose rest).2)

/-- `MultiWorkflowExecutor.shutdown` (lines 258-261): close the exit stack
and clear the cached agents reference.  Returns the contexts exited by this
call and the new state. -/
def shutdown (s : ExecutorState) : List String × ExecutorState :=
  ((aclose s.stack).1, ⟨(aclose s.stack).2, none⟩)

/-- `MultiWorkflowExecutor.cancel` (lines 249-251): unconditionally
`raise Exception("cancel not fully supported in multi-workflow executor")`.
The raised exception is modelled as an `Except.error` value handed to the
transport layer; the executor state is untouched. -/
def cancel (s : ExecutorState) : ExecutorState × Except String Unit :=
  (s, Except.error "cancel not fully supported in multi-workflow executor")

/-- Program counter of one request task inside `_agents_app` (lines
204-208): `idle` before the `self._agents is None` check, `creating` while
suspended in `await self._stack.enter_async_context(fast.run())`, `done`
after returning. -/
inductive TaskPC where
  | idle
  | creating
  | done
deriving DecidableEq, Repr

/-- Shared state for two concurrent first requests running `_agents_app`:
the `self._agents` field, the number of runtimes created so far (each new
runtime gets the next id), and the two task program counters. -/
structure InitState where
  agents : Option Nat
  created : Nat
  pc0 : TaskPC
  pc1 : TaskPC
deriving DecidableEq, Repr

/-- Program counter of task `t`. -/
def pcOf (s : InitState) (t : Bool) : TaskPC :=
  if t then s.pc1 else s.pc0

/-- Replace the program counter of task `t`. -/
def setPC (s : InitState) (t : Bool) (p : TaskPC) : InitState :=
  if t then { s with pc1 := p } else { s with pc0 := p }

/-- One atomic step of task `t` in `_agents_app`: at `idle` it performs the
`self._agents is None` check and either finishes (cache hit) or enters the
`await` (suspension point); at `creating` it completes `fast.run()` —
creating a fresh runtime — and assigns `self._agents`. -/
def taskStep (s : InitState) (t : Bool) : InitState :=
  match pcOf s t with
  | .idle =>
    match s.agents with
    | some _ => setPC s t .done
    | none => setPC s t .creating
  | .creating =>
    setPC { s with agents := some (s.created + 1), created := s.created + 1 } t .done
  | .done => s

/-- Run an interleaving of task steps. -/
def runSched (s : InitState) : List Bool → InitState
  | [] => s
  | t :: rest => runSched (taskStep s t) rest

/-- Initial state: no runtime yet, both requests about to enter
`_agents_app`. -/
def initSt : InitState := ⟨none, 0, .idle, .idle⟩

/-- The `fan_out` list declared on `parallel_workflow` in the source
(lines 82-86), in declared order. -/
def fanOutAgents : List String := ["proofreader", "fact_checker", "style_enforcer"]

/-- Modelled from the spec: the fan-out phase of the Parallel executor
(the executor itself lives in the external `fast_agent` library; §4.2 of
the spec).  The schedule lists fan-out indices in completion order; each
completed invocation stores its output in the slot of its index, and the
first failure observed aborts the phase, tagged with the failing agent. -/
def gatherFanOut (send : String → String → Except String String) (x : String) :
    List Nat → Except (String × String) (Nat → Option String)
  | [] => .ok fun _ => none
  | i :: rest =>
    match send (fanOutAgents.getD i "") x with
    | .error e => .error (fanOutAgents.getD i "", e)
    | .ok out =>
      match gatherFanOut send x rest with
      | .error f => .error f
      | .ok slots => .ok fun j => if j = i then some out else slots j

/-- Modelled from the spec: the fan-out agents actually invoked, in
completion order, stopping at the first failure (fail-fast barrier). -/
def fanOutInvoked (send : String → String → Except String String) (x : String) :
    List Nat → List String
  | [] => []
  | i :: rest =>
    match send (fanOutAgents.getD i "") x with
    | .error _ => [fanOutAgents.getD i ""]
    | .ok _ => fanOutAgents.getD i "" :: fanOutInvoked send x rest

/-- Labelled fan-out outputs read back in declared fan-out order. -/
def aggAux (slots : Nat → Option String) : List String → Nat → List (String × String)
  | [], _ => []
  | a :: rest, i => (a, (slots i).getD "") :: aggAux slots rest (i + 1)

/-- Modelled from the spec: the aggregated fan-in input, assembled in
declared fan-out order regardless of completion order, each output
labelled by its producing agent id (§4.2). -/
def aggregateParts (slots : Nat → Option String) : List (String × String) :=
  aggAux slots fanOutAgents 0

/-- Render the aggregated parts as the fan-in agent's textual input. -/
def renderAgg (parts : List (String × String)) : String :=
  String.intercalate "\n\n" (parts.map fun p => p.1 ++ ": " ++ p.2)

/-- Observable outcome of one Parallel execution: agents invoked, the
aggregated input handed to the fan-in agent (if it was invoked), and the
executor's result (failures tagged with the failing agent id). -/
structure ParallelOutcome where
  invoked : List String
  fanInInput : Option (List (String × String))
  result : Except (String × String) String

/-- Modelled from the spec: the Parallel executor configured as
`parallel_workflow` in the source (`fan_out=[proofreader, fact_checker,
style_enforcer]`, `fan_in=quality_grader`), run under a given completion
schedule.  On full fan-out success the fan-in agent `quality_grader`
receives the aggregate; on any fan-out failure the fan-in agent is not
invoked and the first observed failure is the result. -/
def parallel_workflow (send : String → String → Except String String) (x : String)
    (sched : List Nat) : ParallelOutcome :=
  match gatherFanOut send x sched with
  | .error f => ⟨fanOutInvoked send x sched, none, .error f⟩
  | .ok slots =>
    let agg := aggregateParts slots
    ⟨fanOutInvoked send x sched ++ ["quality_grader"], some agg,
     match send "quality_grader" (renderAgg agg) with
     | .ok out => .ok out
     | .error e => .error ("quality_grader", e)⟩

/-- The `agents` list declared on `router_workflow` in the source
(lines 112-116), in declared order. -/
def routerCandidates : List String := ["code_analyst", "web_researcher", "general_assistant"]

/-- Modelled from the spec: the Router executor configured as
`router_workflow` in the source (the executor lives in `fast_agent`;
§4.3).  The opaque classifier picks a candidate id from the input; an id
outside `candidates` falls back to the first declared candidate; exactly
the selected candidate is invoked, with the original input unchanged. -/
def router_workflow (classify : String → String)
    (send : String → String → Except String String) (x : String) :
    List (String × String) × Except String String :=
  let c := classify x
  let chosen := if routerCandidates.contains c then c else routerCandidates.headD ""
  ([(chosen, x)], send chosen x)

/-- The ordinal rating scale, `POOR < FAIR < GOOD < EXCELLENT` (spec §3;
the evaluator instruction in the source lists the same four grades). -/
inductive Rating where
  | POOR
  | FAIR
  | GOOD
  | EXCELLENT
deriving DecidableEq, Repr

/-- Position of a rating in the fixed total order. -/
def Rating.rank : Rating → Nat
  | .POOR => 0
  | .FAIR => 1
  | .GOOD => 2
  | .EXCELLENT => 3

/-- The `min_rating` declared on `evaluator_optimizer_workflow` (line 174). -/
def min_rating : Rating := Rating.EXCELLENT

/-- The `max_refinements` declared on `evaluator_optimizer_workflow` (line 175). -/
def max_refinements : Nat := 3

/-- Observable outcome of one EvaluatorOptimizer execution. -/
structure EvalOutcome where
  genCalls : Nat
  evalCalls : Nat
  result : Except String (String × Rating)
deriving Repr

/-- Generator input for a refinement round: the original input with the
prior candidate and the evaluator's feedback folded in (spec §4.5 step 5). -/
def refineInput (inp cand fb : String) : String :=
  inp ++ "\nPrevious attempt:\n" ++ cand ++ "\nFeedback:\n" ++ fb

/-- One generate-then-evaluate round: returns the (generator, evaluator)
call counts of the round and either a tagged failure or the candidate with
its rating and feedback. -/
def evalStep (gen : String → Except String String)
    (ev : String → Except String (Rating × String)) (inp : String) :
    (Nat × Nat) × Except String (String × Rating × String) :=
  match gen inp with
  | .error e => ((1, 0), .error ("generator: " ++ e))
  | .ok cand =>
    match ev cand with
    | .error e => ((1, 1), .error ("evaluator: " ++ e))
    | .ok (r, fb) => ((1, 1), .ok (cand, r, fb))

/-- Modelled from the spec: the EvaluatorOptimizer executor (the executor
lives in `fast_agent`; §4.5).  `budget` is the remaining refinement budget
(`maxRefinements` initially): a rating at or above `minRating` stops the
loop at once; a sub-threshold rating with budget exhausted is returned as
a soft, non-failure termination; otherwise the loop refines with the
evaluator's feedback folded into the generator's next input. -/
def evaluator_optimizer (gen : String → Except String String)
    (ev : String → Except String (Rating × String)) (minRating : Rating) :
    Nat → String → EvalOutcome
  | 0, inp =>
    match evalStep gen ev inp with
    | (c, .error e) => ⟨c.1, c.2, .error e⟩
    | (c, .ok (cand, r, _)) => ⟨c.1, c.2, .ok (cand, r)⟩
  | b + 1, inp =>
    match evalStep gen ev inp with
    | (c, .error e) => ⟨c.1, c.2, .error e⟩
    | (c, .ok (cand, r, fb)) =>
      if minRating.rank ≤ r.rank then ⟨c.1, c.2, .ok (cand, r)⟩
      else
        let o := evaluator_optimizer gen ev minRating b (refineInput inp cand fb)
        ⟨o.genCalls + c.1, o.evalCalls + c.2, o.result⟩

/-- A fan-out-style behaviour for witnesses: every agent succeeds, tagging
its output with its own name. -/
def sendTag : String → String → Except String String := fun a _ => Except.ok (a ++ "!")

/-- A classifier returning an id that is not a declared candidate. -/
def classifyBad : String → String := fun _ => "poet"

/-- A generator that always produces the same draft. -/
def genW : String → Except String String := fun _ => Except.ok "draft"

/-- An evaluator that always rates `GOOD` (below `EXCELLENT`). -/
def evGood : String → Except String (Rating × String) :=
  fun _ => Except.ok (Rating.GOOD, "needs work")

/-- An evaluator that always rates `EXCELLENT`. -/
def evExc : String → Except String (Rating × String) :=
  fun _ => Except.ok (Rating.EXCELLENT, "great")

/-! ### Helper lemmas about the embedded Python string operations -/

theorem data_mk (l : List Char) : (String.mk l).data = l := rfl

theorem containsChar_of_mem {l : List Char} {c : Char} (h : c ∈ l) : containsChar l c = true := by
  simp [containsChar, List.any_eq_true]
  exact h

theorem containsChar_append (u v : List Char) (c : Char) :
    containsChar (u ++ v) c = (containsChar u c || containsChar v c) := by
  simp [containsChar]

theorem prefixOf_append_self (u v : List Char) : u.isPrefixOf (u ++ v) = true := by
  induction u with
  | nil => simp [List.isPrefixOf]
  | cons a t ih => simp [List.isPrefixOf, ih]

theorem trimList_all_space (l : List Char) (h : ∀ a ∈ l, isPySpace a = true) :
    trimList l = [] := by
  unfold trimList dropTrail
  rw [List.dropWhile_eq_nil_iff.2 fun a ha => h a ha]
  rfl

theorem dropWhile_dropWhile (p : Char → Bool) (l : List Char) :
    (l.dropWhile p).dropWhile p = l.dropWhile p := by
  induction l with
  | nil => rfl
  | cons a t ih =>
    by_cases h : p a = true
    · simp [List.dropWhile_cons, h, ih]
    · simp [List.dropWhile_cons, h]

theorem dropTrail_append_cons (xs r : List Char) (c : Char) (h : isPySpace c = false) :
    dropTrail (xs ++ c :: r) = xs ++ c :: dropTrail r := by
  unfold dropTrail
  rw [List.reverse_append, List.reverse_cons, List.append_assoc, List.dropWhile_append]
  by_cases he : r.reverse.dropWhile isPySpace = []
  · rw [if_pos (by simp [he])]
    simp [List.dropWhile_cons, h, he]
  · rw [if_neg (by simpa [List.isEmpty_iff] using he)]
    simp

theorem dropTrail_cons (a : Char) (t : List Char) :
    dropTrail (a :: t) =
      if (dropTrail t).isEmpty then (if isPySpace a then [] else [a])
      else a :: dropTrail t := by
  unfold dropTrail
  rw [List.reverse_cons, List.dropWhile_append]
  by_cases he : t.reverse.dropWhile isPySpace = []
  · rw [if_pos (by simp [he]), if_pos (by simp [he])]
    by_cases ha : isPySpace a <;> simp [List.dropWhile_cons, ha]
  · rw [if_neg (by simpa [List.isEmpty_iff] using he),
        if_neg (by simpa [List.isEmpty_iff] using he)]
    simp

theorem dropWhile_dropTrail (l : List Char) :
    (dropTrail l).dropWhile isPySpace = dropTrail (l.dropWhile isPySpace) := by
  induction l with
  | nil => rfl
  | cons a t ih =>
    rw [dropTrail_cons, List.dropWhile_cons]
    by_cases ha : isPySpace a = true
    · rw [if_pos ha, if_pos ha]
      by_cases he : dropTrail t = []
      · rw [if_pos (by simp [he]), ← ih, he]
      · rw [if_neg (by simpa [List.isEmpty_iff] using he), List.dropWhile_cons, if_pos ha, ih]
    · rw [if_neg ha, if_neg ha, dropTrail_cons]
      by_cases he : dropTrail t = []
      · rw [if_pos (by simp [he]), if_pos (by simp [he])]
        simp [List.dropWhile_cons, ha]
      · rw [if_neg (by simpa [List.isEmpty_iff] using he),
            if_neg (by simpa [List.isEmpty_iff] using he)]
        simp [List.dropWhile_cons, ha]

theorem dropTrail_dropTrail (l : List Char) : dropTrail (dropTrail l) = dropTrail l := by
  unfold dropTrail
  rw [List.reverse_reverse, dropWhile_dropWhile]

theorem trimList_dropTrail (l : List Char) : trimList (dropTrail l) = trimList l := by
  unfold trimList
  rw [dropWhile_dropTrail, dropTrail_dropTrail]

theorem splitFirst_append (xs ys : List Char) (h : containsChar xs '|' = false) :
    splitFirstAux '|' (xs ++ '|' :: ys) = some (xs, ys) := by
  induction xs with
  | nil => simp [splitFirstAux]
  | cons a t ih =>
    have hsplit : (a == '|') = false ∧ containsChar t '|' = false := by
      have hh := h
      simp [containsChar, List.any_cons] at hh
      refine ⟨by simp [hh.1], ?_⟩
      simp [containsChar, List.any_eq_true]
      intro x hx
      exact hh.2 x hx
    have hne : ¬ a = '|' := by
      intro hc
      rw [hc] at hsplit
      simp at hsplit
    simp [splitFirstAux, hne, ih hsplit.2]

theorem deleteAll_no_occ (pat l : List Char) (h : hasOcc pat l = false) :
    ∀ fuel, deleteAllAux pat fuel l = l := by
  induction l with
  | nil => intro fuel; cases fuel <;> rfl
  | cons a t ih =>
    intro fuel
    have hh := h
    simp [hasOcc] at hh
    cases fuel with
    | zero => rfl
    | succ f =>
      simp [deleteAllAux, hh.1, ih hh.2]

theorem deleteAll_strip (p : Char) (ps name : List Char) (fuel : Nat)
    (h : hasOcc (p :: ps) name = false) :
    deleteAllAux (p :: ps) (fuel + 1) (p :: (ps ++ name)) = name := by
  have hpre : (p :: ps).isPrefixOf (p :: (ps ++ name)) = true := by
    simp [List.isPrefixOf, prefixOf_append_self]
  have hdrop : List.drop (p :: ps).length (p :: (ps ++ name)) = name := by
    rw [List.length_cons, List.drop_succ_cons, List.drop_left]
  simp [deleteAllAux, hpre, hdrop, deleteAll_no_occ _ _ h]

theorem trim_form (name rest : List Char) :
    trimList ("workflow:".data ++ name ++ '|' :: rest)
      = "workflow:".data ++ name ++ '|' :: dropTrail rest := by
  have h1 : ("workflow:".data ++ name ++ '|' :: rest).dropWhile isPySpace
      = "workflow:".data ++ name ++ '|' :: rest := by
    have hw : ("workflow:".data : List Char) ++ name ++ '|' :: rest
        = 'w' :: ("orkflow:".data ++ name ++ '|' :: rest) := rfl
    rw [hw, List.dropWhile_cons, if_neg (by decide)]
  unfold trimList
  rw [h1, dropTrail_append_cons _ _ _ (by decide)]

theorem pyStrip_mk (l : List Char) : pyStrip (String.mk l) = String.mk (trimList l) := rfl

theorem pyStrip_dropTrail (l : List Char) :
    pyStrip (String.mk (dropTrail l)) = pyStrip (String.mk l) := by
  rw [pyStrip_mk, pyStrip_mk, trimList_dropTrail]

theorem parse_form (name rest : List Char) (h1 : containsChar name '|' = false)
    (h2 : hasOcc "workflow:".data name = false) :
    parseMessage (pyStrip (String.mk ("workflow:".data ++ name ++ '|' :: rest)))
      = (pyStrip (String.mk name), pyStrip (String.mk rest)) := by
  rw [pyStrip_mk, trim_form]
  unfold parseMessage
  have hc : containsChar (String.mk ("workflow:".data ++ name ++ '|' :: dropTrail rest)).data '|'
      = true := containsChar_of_mem (by rw [data_mk]; simp)
  have hsw : startsWithPy (String.mk ("workflow:".data ++ name ++ '|' :: dropTrail rest))
      "workflow:" = true := by
    unfold startsWithPy
    rw [data_mk, List.append_assoc]
    exact prefixOf_append_self _ _
  have hcond : (containsChar (String.mk ("workflow:".data ++ name ++ '|' :: dropTrail rest)).data '|'
      && startsWithPy (String.mk ("workflow:".data ++ name ++ '|' :: dropTrail rest)) "workflow:")
      = true := by
    rw [hc, hsw]
    rfl
  rw [if_pos hcond]
  have hsplit : splitFirstAux '|' (String.mk ("workflow:".data ++ name ++ '|' :: dropTrail rest)).data
      = some ("workflow:".data ++ name, dropTrail rest) := by
    rw [data_mk]
    refine splitFirst_append _ _ ?_
    rw [containsChar_append, h1]
    decide
  rw [hsplit]
  have hdel : pyDeleteAll (String.mk ("workflow:".data ++ name)) "workflow:" = String.mk name := by
    unfold pyDeleteAll
    rw [data_mk, show ("workflow:".data : List Char) = 'w' :: "orkflow:".data from rfl,
        show (('w' :: "orkflow:".data) ++ name).length = name.length + 8 + 1 from by
          rw [List.length_append, show ('w' :: "orkflow:".data : List Char).length = 9 from rfl]
          omega,
        List.cons_append, deleteAll_strip 'w' "orkflow:".data name _ h2]
  show (pyStrip (pyDeleteAll (String.mk ("workflow:".data ++ name)) "workflow:"),
        pyStrip (String.mk (dropTrail rest)))
      = (pyStrip (String.mk name), pyStrip (String.mk rest))
  rw [hdel, pyStrip_dropTrail]

theorem execute_spec (agentsMap : List String) (send : String → String → Except String String)
    (raw wn um ag : String) (hne : pyStrip raw ≠ "")
    (hparse : parseMessage (pyStrip raw) = (wn, um))
    (hag : resolveWorkflow agentsMap wn = some ag) :
    (execute agentsMap (Except.ok ()) send raw).invoked = [(ag, um)] := by
  cases hsend : send ag um with
  | ok r => simp [execute, hne, hparse, hag, hsend]
  | error e => simp [execute, hne, hparse, hag, hsend]

/-! ### Claim C10 -/

/-- Claim C10 (confirmed): for every inbound request whose user input is
empty or consists only of whitespace, `execute` returns without enqueueing
any event and without invoking any workflow agent. -/
theorem empty_input_no_event (agentsMap : List String) (appInit : Except String Unit)
    (send : String → String → Except String String) (raw : String)
    (h : raw.data.all isPySpace = true) :
    execute agentsMap appInit send raw = ⟨[], []⟩ := by
  have htrim : pyStrip raw = "" := by
    have hlist : trimList raw.data = [] :=
      trimList_all_space _ (by simpa [List.all_eq_true] using h)
    show String.mk (trimList raw.data) = ""
    rw [hlist]
  simp [execute, htrim]

/-- Witness: an all-whitespace input yields no invocation and no event. -/
theorem empty_input_no_event_wit :
    ("  \t ".data.all isPySpace = true) ∧
      execute serverRegistry (Except.ok ()) sendOK "  \t " = ⟨[], []⟩ :=
  ⟨by decide, empty_input_no_event serverRegistry (Except.ok ()) sendOK "  \t " (by decide)⟩

/-! ### Claim C3 -/

/-- Claim C3 (confirmed): an unregistered workflow name resolves to the
default `router_workflow` when registered, else to the first registry
entry in iteration order; resolution never fails on a non-empty registry. -/
theorem resolve_fallback (agentsMap : List String) (n : String) (hm : agentsMap ≠ []) :
    (resolveWorkflow agentsMap n).isSome = true ∧
    (agentsMap.contains n = false →
      resolveWorkflow agentsMap n =
        if agentsMap.contains "router_workflow" then some "router_workflow"
        else agentsMap.head?) := by
  constructor
  · unfold resolveWorkflow
    by_cases h1 : agentsMap.contains n
    · rw [if_pos h1]
      rfl
    · rw [if_neg h1]
      by_cases h2 : agentsMap.contains "router_workflow"
      · rw [if_pos h2]
        rfl
      · rw [if_neg h2]
        cases agentsMap with
        | nil => exact absurd rfl hm
        | cons a t => rfl
  · intro hn
    unfold resolveWorkflow
    rw [if_neg (fun hc => by rw [hn] at hc; exact Bool.noConfusion hc)]

/-- Witness: `unknown_wf` is not registered and resolves to the default. -/
theorem resolve_fallback_wit :
    (resolveWorkflow serverRegistry "unknown_wf").isSome = true ∧
      resolveWorkflow serverRegistry "unknown_wf" = some "router_workflow" := by
  have h := resolve_fallback serverRegistry "unknown_wf" (by decide)
  refine ⟨h.1, ?_⟩
  rw [h.2 (by decide)]
  decide

/-! ### Claim C4 -/

/-- Claim C4 (confirmed): `cancel` always yields the unsupported-operation
failure value regardless of prior executor state, and mutates nothing —
no partial cancellation of in-flight executors.  The raised exception is
the `Except.error` value handed to the transport layer, which surfaces it
to the caller; it is a result value in this embedding, not a
process-terminating escape. -/
theorem cancel_unsupported :
    ∀ s : ExecutorState,
      (cancel s).1 = s ∧
      (cancel s).2 = Except.error "cancel not fully supported in multi-workflow executor" ∧
      isOkE (cancel s).2 = false :=
  fun _ => ⟨rfl, rfl, rfl⟩

/-! ### Claim C9 -/

theorem aclose_eq (l : List String) : aclose l = (l, []) := by
  induction l with
  | nil => rfl
  | cons c rest ih => simp [aclose, ih]

/-- Claim C9 (confirmed): `shutdown` is idempotent — a second call exits no
contexts, does not fail, and leaves the state exactly as after the first
call (empty stack, cleared agents reference). -/
theorem shutdown_idempotent :
    ∀ s : ExecutorState,
      (shutdown (shutdown s).2).2 = (shutdown s).2 ∧
      (shutdown (shutdown s).2).1 = [] ∧
      (shutdown s).2 = ⟨[], none⟩ := by
  intro s
  simp [shutdown, aclose_eq]

/-! ### Claim C8 -/

/-- Claim C8 counterexample: the interleaving in which both first requests
pass the `self._agents is None` check before either finishes
`enter_async_context(fast.run())` creates two runtimes (the second
overwrites the first), refuting the exactly-once, race-free claim. -/
theorem lazy_init_race_cex :
    (runSched initSt [false, true, false, true]).created = 2 ∧
    (runSched initSt [false, true, false, true]).agents = some 2 := by decide

/-- Claim C8 (corrected, amended): the runtime is created lazily on first
invocation, and the guard is a plain unguarded `None` check: serialized
invocations create exactly one runtime which every later invocation
reuses, but two interleaved first requests can both pass the check and
create two runtimes (see the counterexample). -/
theorem lazy_init_amended :
    (initSt.created = 0 ∧
      runSched initSt [false, false] = ⟨some 1, 1, TaskPC.done, TaskPC.idle⟩ ∧
      (runSched initSt [false, false, true, true]).created = 1 ∧
      (runSched initSt [false, false, true, true]).agents = some 1) ∧
    (∀ s : InitState, ∀ t : Bool, ∀ a : Nat,
      s.agents = some a → pcOf s t = TaskPC.idle →
        taskStep s t = setPC s t TaskPC.done ∧
        (taskStep s t).created = s.created ∧
        (taskStep s t).agents = s.agents) := by
  refine ⟨by decide, ?_⟩
  intro s t a ha hpc
  have hstep : taskStep s t = setPC s t TaskPC.done := by
    simp [taskStep, hpc, ha]
  refine ⟨hstep, ?_, ?_⟩ <;> rw [hstep] <;> cases t <;> simp [setPC]

/-- Witness: a request arriving after initialization reuses the runtime. -/
theorem lazy_init_amended_wit :
    taskStep ⟨some 1, 1, TaskPC.done, TaskPC.idle⟩ true
        = setPC ⟨some 1, 1, TaskPC.done, TaskPC.idle⟩ true TaskPC.done ∧
      (taskStep ⟨some 1, 1, TaskPC.done, TaskPC.idle⟩ true).created = 1 :=
  ⟨(lazy_init_amended.2 ⟨some 1, 1, TaskPC.done, TaskPC.idle⟩ true 1 rfl rfl).1,
   (lazy_init_amended.2 ⟨some 1, 1, TaskPC.done, TaskPC.idle⟩ true 1 rfl rfl).2.1⟩

/-! ### Claim C2 -/

/-- Claim C2 counterexample: for request `workflow:unknown_wf|hi` the
requested name resolves (by fallback) to `router_workflow`, yet the
failure text of a failing send is `"Error in unknown_wf: boom"` — it
contains neither the resolved workflow name nor any indication of the
failing stage, refuting the claim that the failure text includes the
resolved workflow name and the failed stage. -/
theorem errors_caught_cex :
    (execute serverRegistry (Except.ok ()) sendBoom "workflow:unknown_wf|hi").events =
      ["Error in unknown_wf: boom"] ∧
    resolveWorkflow serverRegistry "unknown_wf" = some "router_workflow" ∧
    hasOcc "router_workflow".data "Error in unknown_wf: boom".data = false := by decide

/-- Claim C2 (corrected, amended): every exception raised while lazily
starting the runtime or invoking the resolved agent is caught and
converted into exactly one text event
`"Error in {requested workflow name}: {exception text}"` — never
re-raised.  The text carries the requested (parsed) workflow name, not the
resolved workflow name, and no stage indicator. -/
theorem errors_caught_textual (send : String → String → Except String String)
    (raw : String) (e : String) (h : pyStrip raw ≠ "") :
    (execute serverRegistry (Except.error e) send raw).events =
      ["Error in " ++ (parseMessage (pyStrip raw)).1 ++ ": " ++ e] ∧
    (∀ ag, resolveWorkflow serverRegistry (parseMessage (pyStrip raw)).1 = some ag →
      send ag (parseMessage (pyStrip raw)).2 = Except.error e →
      (execute serverRegistry (Except.ok ()) send raw).events =
        ["Error in " ++ (parseMessage (pyStrip raw)).1 ++ ": " ++ e]) := by
  constructor
  · simp [execute, h]
  · intro ag hres hsend
    simp [execute, h, hres, hsend]

/-- Witness: a runtime-startup failure on a plain message becomes a single
error event naming the default workflow. -/
theorem errors_caught_textual_wit :
    (pyStrip "hello" ≠ "") ∧
    (execute serverRegistry (Except.error "init failed") sendOK "hello").events =
      ["Error in router_workflow: init failed"] := by
  have h := errors_caught_textual sendOK "hello" "init failed" (by decide)
  refine ⟨by decide, ?_⟩
  rw [h.1]
  decide

/-! ### Claim C1 -/

/-- Claim C1 counterexample: `workflow:workflow:parallel_workflow|hi` has
the form `workflow:<name>|<rest>` with `<name> = "workflow:parallel_workflow"`,
but `str.replace` deletes every `"workflow:"` occurrence in the segment
before the first `|`, so the dispatcher invokes `parallel_workflow` with
message `hi` — not the (unregistered) workflow `workflow:parallel_workflow`,
whose resolution would fall back to `router_workflow`. -/
theorem dispatch_form_cex :
    (execute serverRegistry (Except.ok ()) sendOK
        (String.mk ("workflow:".data ++ "workflow:parallel_workflow".data ++ '|' :: "hi".data))).invoked
      = [("parallel_workflow", "hi")] ∧
    resolveWorkflow serverRegistry "workflow:parallel_workflow" = some "router_workflow" ∧
    ("parallel_workflow" : String) ≠ "workflow:parallel_workflow" ∧
    ("parallel_workflow" : String) ≠ "router_workflow" := by decide

/-- Claim C1 (corrected, amended): for every message
`workflow:<name>|<rest>` in which `<name>` contains no `'|'` and no
further occurrence of `"workflow:"`, the dispatcher resolves `<name>`
stripped of whitespace and passes `<rest>` stripped of whitespace as the
agent input (when `<name>` contains further `"workflow:"` occurrences,
each is deleted, not only the leading one — see the counterexample); and
every non-whitespace message not of that form is passed whole (stripped)
to the default workflow `router_workflow`. -/
theorem dispatch_routing_amended (send : String → String → Except String String) :
    (∀ name rest : List Char, containsChar name '|' = false →
      hasOcc "workflow:".data name = false →
      (execute serverRegistry (Except.ok ()) send
          (String.mk ("workflow:".data ++ name ++ '|' :: rest))).invoked =
        [((resolveWorkflow serverRegistry (pyStrip (String.mk name))).getD "",
          pyStrip (String.mk rest))]) ∧
    (∀ msg : String, pyStrip msg ≠ "" →
      (containsChar (pyStrip msg).data '|' && startsWithPy (pyStrip msg) "workflow:") = false →
      (execute serverRegistry (Except.ok ()) send msg).invoked =
        [("router_workflow", pyStrip msg)]) := by
  constructor
  · intro name rest h1 h2
    have hdata : (pyStrip (String.mk ("workflow:".data ++ name ++ '|' :: rest))).data
        = "workflow:".data ++ name ++ '|' :: dropTrail rest := by
      rw [pyStrip_mk, trim_form, data_mk]
    have hne : pyStrip (String.mk ("workflow:".data ++ name ++ '|' :: rest)) ≠ "" := by
      intro hc
      rw [hc] at hdata
      rw [show (("" : String)).data = [] from rfl,
          show ("workflow:".data : List Char) = 'w' :: "orkflow:".data from rfl] at hdata
      simp at hdata
    have hparse := parse_form name rest h1 h2
    obtain ⟨ag, hag⟩ : ∃ ag,
        resolveWorkflow serverRegistry (pyStrip (String.mk name)) = some ag := by
      unfold resolveWorkflow
      by_cases hc1 : serverRegistry.contains (pyStrip (String.mk name))
      · exact ⟨pyStrip (String.mk name), by rw [if_pos hc1]⟩
      · exact ⟨"router_workflow",
          by rw [if_neg hc1,
                 if_pos (show serverRegistry.contains "router_workflow" = true from by decide)]⟩
    rw [execute_spec serverRegistry send _ _ _ ag hne hparse hag, hag]
    rfl
  · intro msg hne hcond
    have hparse : parseMessage (pyStrip msg) = ("router_workflow", pyStrip msg) := by
      unfold parseMessage
      rw [hcond]
      simp
    exact execute_spec serverRegistry send msg "router_workflow" (pyStrip msg)
      "router_workflow" hne hparse (by decide)

/-- Witness: the two concrete dispatches named by the claim. -/
theorem dispatch_routing_amended_wit :
    (containsChar "router_workflow".data '|' = false ∧
      hasOcc "workflow:".data "router_workflow".data = false) ∧
    (execute serverRegistry (Except.ok ()) sendOK
        (String.mk ("workflow:".data ++ "router_workflow".data ++ '|' :: "What is 2+2?".data))).invoked
      = [("router_workflow", "What is 2+2?")] ∧
    (execute serverRegistry (Except.ok ()) sendOK "hello").invoked =
      [("router_workflow", "hello")] := by
  have h := dispatch_routing_amended sendOK
  refine ⟨by decide, ?_, ?_⟩
  · rw [h.1 "router_workflow".data "What is 2+2?".data (by decide) (by decide)]
    decide
  · rw [h.2 "hello" (by decide) (by decide)]
    decide

/-! ### Claim C5 -/

theorem getD_mem_fanOut (i : Nat) (h : i < 3) : fanOutAgents.getD i "" ∈ fanOutAgents := by
  interval_cases i <;> decide

theorem gather_ok (send : String → String → Except String String) (x : String) :
    ∀ sched : List Nat, (∀ i ∈ sched, isOkE (send (fanOutAgents.getD i "") x) = true) →
      ∃ slots, gatherFanOut send x sched = Except.ok slots ∧
        ∀ i ∈ sched, slots i = some (okOr (send (fanOutAgents.getD i "") x)) := by
  intro sched
  induction sched with
  | nil => exact fun _ => ⟨fun _ => none, rfl, by simp⟩
  | cons i rest ih =>
    intro h
    have hi := h i (List.mem_cons_self i rest)
    cases hsend : send (fanOutAgents.getD i "") x with
    | error e => rw [hsend] at hi; exact Bool.noConfusion hi
    | ok out =>
      obtain ⟨slots, hg, hs⟩ := ih fun j hj => h j (List.mem_cons_of_mem i hj)
      refine ⟨fun j => if j = i then some out else slots j, ?_, ?_⟩
      · unfold gatherFanOut
        rw [hsend, hg]
      · intro j hj
        rcases List.mem_cons.mp hj with hji | hjr
        · subst hji
          show (if j = j then some out else slots j)
              = some (okOr (send (fanOutAgents.getD j "") x))
          rw [if_pos rfl, hsend]
          rfl
        · by_cases hji : j = i
          · subst hji
            show (if j = j then some out else slots j)
                = some (okOr (send (fanOutAgents.getD j "") x))
            rw [if_pos rfl, hsend]
            rfl
          · show (if j = i then some out else slots j)
                = some (okOr (send (fanOutAgents.getD j "") x))
            rw [if_neg hji]
            exact hs j hjr

theorem gather_err (send : String → String → Except String String) (x : String) :
    ∀ sched : List Nat, (∀ i ∈ sched, i < 3) →
      (∃ i ∈ sched, isOkE (send (fanOutAgents.getD i "") x) = false) →
      ∃ b e', b ∈ fanOutAgents ∧ send b x = Except.error e' ∧
        gatherFanOut send x sched = Except.error (b, e') := by
  intro sched
  induction sched with
  | nil => rintro _ ⟨i, hi, _⟩; exact absurd hi (List.not_mem_nil i)
  | cons i rest ih =>
    rintro hlt ⟨j, hj, hjf⟩
    cases hsend : send (fanOutAgents.getD i "") x with
    | error e =>
      exact ⟨fanOutAgents.getD i "", e,
        getD_mem_fanOut i (hlt i (List.mem_cons_self i rest)), hsend,
        by unfold gatherFanOut; rw [hsend]⟩
    | ok out =>
      have hjr : j ∈ rest := by
        rcases List.mem_cons.mp hj with hji | hjr
        · subst hji
          rw [hsend] at hjf
          exact Bool.noConfusion hjf
        · exact hjr
      obtain ⟨b, e', hb, hbe, hge⟩ :=
        ih (fun k hk => hlt k (List.mem_cons_of_mem i hk)) ⟨j, hjr, hjf⟩
      exact ⟨b, e', hb, hbe, by unfold gatherFanOut; rw [hsend, hge]⟩

theorem invoked_sub (send : String → String → Except String String) (x : String) :
    ∀ sched : List Nat, (∀ i ∈ sched, i < 3) →
      ∀ a ∈ fanOutInvoked send x sched, a ∈ fanOutAgents := by
  intro sched
  induction sched with
  | nil => intro _ a ha; exact absurd ha (List.not_mem_nil a)
  | cons i rest ih =>
    intro hlt a ha
    have hmi : fanOutAgents.getD i "" ∈ fanOutAgents :=
      getD_mem_fanOut i (hlt i (List.mem_cons_self i rest))
    cases hsend : send (fanOutAgents.getD i "") x with
    | error e =>
      rw [show fanOutInvoked send x (i :: rest) = [fanOutAgents.getD i ""] from by
            rw [fanOutInvoked, hsend]] at ha
      rcases List.mem_singleton.mp ha with rfl
      exact hmi
    | ok out =>
      rw [show fanOutInvoked send x (i :: rest)
            = fanOutAgents.getD i "" :: fanOutInvoked send x rest from by
              rw [fanOutInvoked, hsend]] at ha
      rcases List.mem_cons.mp ha with rfl | hrest
      · exact hmi
      · exact ih (fun k hk => hlt k (List.mem_cons_of_mem i hk)) a hrest

/-- Claim C5 (confirmed, spec-modelled): for the Parallel executor with
`fanOut = [proofreader, fact_checker, style_enforcer]` and
`fanIn = quality_grader`, under every completion interleaving (every
permutation of the fan-out indices): on full success the aggregated input
given to the fan-in agent lists the three fan-out outputs in declared
fan-out order; if any fan-out agent fails, the fan-in agent is never
invoked and the executor's result is the failure of a failing fan-out
agent, tagged with its id. -/
theorem parallel_workflow_props (send : String → String → Except String String) (x : String)
    (sched : List Nat) (hp : sched.Perm [0, 1, 2]) :
    ((∀ a ∈ fanOutAgents, isOkE (send a x) = true) →
      (parallel_workflow send x sched).fanInInput
        = some (fanOutAgents.map fun a => (a, okOr (send a x)))) ∧
    (∀ a ∈ fanOutAgents, ∀ e, send a x = Except.error e →
      "quality_grader" ∉ (parallel_workflow send x sched).invoked ∧
      ∃ b e', b ∈ fanOutAgents ∧ send b x = Except.error e' ∧
        (parallel_workflow send x sched).result = Except.error (b, e')) := by
  have hmem : ∀ i ∈ sched, i < 3 := by
    intro i hi
    have h3 : i ∈ [0, 1, 2] := hp.mem_iff.mp hi
    simp at h3
    rcases h3 with rfl | rfl | rfl <;> omega
  constructor
  · intro hok
    have hsok : ∀ i ∈ sched, isOkE (send (fanOutAgents.getD i "") x) = true := fun i hi =>
      hok _ (getD_mem_fanOut i (hmem i hi))
    obtain ⟨slots, hg, hs⟩ := gather_ok send x sched hsok
    have h0 := hs 0 (hp.mem_iff.mpr (by decide))
    have h1 := hs 1 (hp.mem_iff.mpr (by decide))
    have h2 := hs 2 (hp.mem_iff.mpr (by decide))
    unfold parallel_workflow
    rw [hg]
    show some (aggregateParts slots) = some (fanOutAgents.map fun a => (a, okOr (send a x)))
    simp [aggregateParts, aggAux, fanOutAgents, h0, h1, h2]
  · intro a ha e hsend
    have hex : ∃ i ∈ sched, isOkE (send (fanOutAgents.getD i "") x) = false := by
      fin_cases ha
      · exact ⟨0, hp.mem_iff.mpr (by decide), by rw [show fanOutAgents.getD 0 "" = "proofreader" from rfl, hsend]; rfl⟩
      · exact ⟨1, hp.mem_iff.mpr (by decide), by rw [show fanOutAgents.getD 1 "" = "fact_checker" from rfl, hsend]; rfl⟩
      · exact ⟨2, hp.mem_iff.mpr (by decide), by rw [show fanOutAgents.getD 2 "" = "style_enforcer" from rfl, hsend]; rfl⟩
    obtain ⟨b, e', hb, hbe, hge⟩ := gather_err send x sched hmem hex
    constructor
    · unfold parallel_workflow
      rw [hge]
      show "quality_grader" ∉ fanOutInvoked send x sched
      intro hq
      have := invoked_sub send x sched hmem _ hq
      simp [fanOutAgents] at this
    · refine ⟨b, e', hb, hbe, ?_⟩
      unfold parallel_workflow
      rw [hge]

/-- Witness: a concrete non-declared completion order (`style_enforcer`
first) still aggregates in declared fan-out order. -/
theorem parallel_workflow_props_wit :
    (∀ a ∈ fanOutAgents, isOkE (sendTag a "txt") = true) ∧
    (parallel_workflow sendTag "txt" [2, 0, 1]).fanInInput
      = some [("proofreader", "proofreader!"), ("fact_checker", "fact_checker!"),
              ("style_enforcer", "style_enforcer!")] := by
  refine ⟨by decide, ?_⟩
  rw [(parallel_workflow_props sendTag "txt" [2, 0, 1] (by decide)).1 (by decide)]
  decide

/-! ### Claim C6 -/

/-- Claim C6 (confirmed, spec-modelled): the Router invokes exactly one
candidate per call, with the original input unchanged, and a
classification result outside the declared candidates falls back
deterministically to the first declared candidate, `code_analyst`. -/
theorem router_workflow_props (classify : String → String)
    (send : String → String → Except String String) (x : String) :
    (router_workflow classify send x).1.length = 1 ∧
    (∀ p ∈ (router_workflow classify send x).1, p.2 = x ∧ p.1 ∈ routerCandidates) ∧
    (routerCandidates.contains (classify x) = false →
      (router_workflow classify send x).1 = [("code_analyst", x)] ∧
      (router_workflow classify send x).2 = send "code_analyst" x) := by
  have hunfold : router_workflow classify send x
      = ([(if routerCandidates.contains (classify x) then classify x
            else routerCandidates.headD "", x)],
         send (if routerCandidates.contains (classify x) then classify x
            else routerCandidates.headD "") x) := rfl
  by_cases hc : routerCandidates.contains (classify x)
  · rw [hunfold, if_pos hc]
    refine ⟨rfl, ?_, ?_⟩
    · intro p hp
      rcases List.mem_singleton.mp hp with rfl
      refine ⟨rfl, ?_⟩
      have helem : routerCandidates.elem (classify x) = true := hc
      exact List.elem_iff.mp helem
    · intro hf
      rw [hc] at hf
      exact Bool.noConfusion hf
  · rw [hunfold, if_neg hc]
    refine ⟨rfl, ?_, fun _ => ⟨rfl, rfl⟩⟩
    intro p hp
    rcases List.mem_singleton.mp hp with rfl
    exact ⟨rfl, (by decide : ("code_analyst" : String) ∈ routerCandidates)⟩

/-- Witness: a classification result outside the candidates selects
`code_analyst` with the input unchanged. -/
theorem router_workflow_props_wit :
    routerCandidates.contains (classifyBad "hi") = false ∧
    (router_workflow classifyBad sendOK "hi").1 = [("code_analyst", "hi")] :=
  ⟨by decide, ((router_workflow_props classifyBad sendOK "hi").2.2 (by decide)).1⟩

/-! ### Claim C7 -/

theorem evalOpt_calls_le (gen : String → Except String String)
    (ev : String → Except String (Rating × String)) (minR : Rating) :
    ∀ (n : Nat) (inp : String),
      (evaluator_optimizer gen ev minR n inp).genCalls ≤ n + 1 ∧
      (evaluator_optimizer gen ev minR n inp).evalCalls ≤ n + 1 := by
  intro n
  induction n with
  | zero =>
    intro inp
    cases hg : gen inp with
    | error e => constructor <;> simp [evaluator_optimizer, evalStep, hg]
    | ok cand =>
      cases he : ev cand with
      | error e => constructor <;> simp [evaluator_optimizer, evalStep, hg, he]
      | ok rf =>
        rcases rf with ⟨r, fb⟩
        constructor <;> simp [evaluator_optimizer, evalStep, hg, he]
  | succ b ih =>
    intro inp
    cases hg : gen inp with
    | error e => constructor <;> simp [evaluator_optimizer, evalStep, hg]
    | ok cand =>
      cases he : ev cand with
      | error e => constructor <;> simp [evaluator_optimizer, evalStep, hg, he]
      | ok rf =>
        rcases rf with ⟨r, fb⟩
        by_cases hr : minR.rank ≤ r.rank
        · constructor <;> simp [evaluator_optimizer, evalStep, hg, he, hr]
        · have hgc := (ih (refineInput inp cand fb)).1
          have hec := (ih (refineInput inp cand fb)).2
          constructor <;> simp [evaluator_optimizer, evalStep, hg, he, hr] <;> omega

theorem evalOpt_first_success (gen : String → Except String String)
    (ev : String → Except String (Rating × String)) (minR : Rating) (n : Nat) (inp : String)
    (cand : String) (r : Rating) (fb : String)
    (hg : gen inp = Except.ok cand) (he : ev cand = Except.ok (r, fb))
    (hr : minR.rank ≤ r.rank) :
    evaluator_optimizer gen ev minR n inp = ⟨1, 1, Except.ok (cand, r)⟩ := by
  cases n with
  | zero => simp [evaluator_optimizer, evalStep, hg, he]
  | succ b => simp [evaluator_optimizer, evalStep, hg, he, hr]

theorem evalOpt_exhaust (gen : String → Except String String)
    (ev : String → Except String (Rating × String)) (minR : Rating)
    (hgt : ∀ s, isOkE (gen s) = true) (het : ∀ c, isOkE (ev c) = true)
    (hsub : ∀ c r fb, ev c = Except.ok (r, fb) → ¬ minR.rank ≤ r.rank) :
    ∀ (n : Nat) (inp : String),
      (evaluator_optimizer gen ev minR n inp).genCalls = n + 1 ∧
      (evaluator_optimizer gen ev minR n inp).evalCalls = n + 1 ∧
      isOkE (evaluator_optimizer gen ev minR n inp).result = true := by
  intro n
  induction n with
  | zero =>
    intro inp
    cases hg : gen inp with
    | error e =>
      have hcon := hgt inp
      rw [hg] at hcon
      exact Bool.noConfusion hcon
    | ok cand =>
      cases he : ev cand with
      | error e =>
        have hcon := het cand
        rw [he] at hcon
        exact Bool.noConfusion hcon
      | ok rf =>
        rcases rf with ⟨r, fb⟩
        refine ⟨?_, ?_, ?_⟩ <;> simp [evaluator_optimizer, evalStep, isOkE, hg, he]
  | succ b ih =>
    intro inp
    cases hg : gen inp with
    | error e =>
      have hcon := hgt inp
      rw [hg] at hcon
      exact Bool.noConfusion hcon
    | ok cand =>
      cases he : ev cand with
      | error e =>
        have hcon := het cand
        rw [he] at hcon
        exact Bool.noConfusion hcon
      | ok rf =>
        rcases rf with ⟨r, fb⟩
        have hr := hsub cand r fb he
        obtain ⟨ih1, ih2, ih3⟩ := ih (refineInput inp cand fb)
        refine ⟨?_, ?_, ?_⟩
        · simp [evaluator_optimizer, evalStep, hg, he, hr, ih1]
        · simp [evaluator_optimizer, evalStep, hg, he, hr, ih2]
        · simp [evaluator_optimizer, evalStep, hg, he, hr, ih3]

/-- Claim C7 (confirmed, spec-modelled): the EvaluatorOptimizer executor
with refinement budget `n` performs at most `n + 1` generator calls and at
most `n + 1` evaluator calls; the first evaluation whose rating reaches
`minRating` (under `POOR < FAIR < GOOD < EXCELLENT`) stops the loop at
once, returning the candidate; and when every rating stays below the
threshold (and no agent fails), the budget is exhausted with exactly
`n + 1` calls of each and a successful, non-failure result holding the
last candidate. -/
theorem evaluator_optimizer_props (gen : String → Except String String)
    (ev : String → Except String (Rating × String)) (minR : Rating) (n : Nat) (inp : String) :
    ((evaluator_optimizer gen ev minR n inp).genCalls ≤ n + 1 ∧
     (evaluator_optimizer gen ev minR n inp).evalCalls ≤ n + 1) ∧
    (∀ cand r fb, gen inp = Except.ok cand → ev cand = Except.ok (r, fb) →
      minR.rank ≤ r.rank →
      evaluator_optimizer gen ev minR n inp = ⟨1, 1, Except.ok (cand, r)⟩) ∧
    ((∀ s, isOkE (gen s) = true) → (∀ c, isOkE (ev c) = true) →
      (∀ c r fb, ev c = Except.ok (r, fb) → ¬ minR.rank ≤ r.rank) →
      (evaluator_optimizer gen ev minR n inp).genCalls = n + 1 ∧
      (evaluator_optimizer gen ev minR n inp).evalCalls = n + 1 ∧
      isOkE (evaluator_optimizer gen ev minR n inp).result = true) :=
  ⟨evalOpt_calls_le gen ev minR n inp,
   fun cand r fb hg he hr => evalOpt_first_success gen ev minR n inp cand r fb hg he hr,
   fun hgt het hsub => evalOpt_exhaust gen ev minR hgt het hsub n inp⟩

/-- Witness, at the source configuration (`min_rating = EXCELLENT`,
`max_refinements = 3`): an immediately `EXCELLENT` rating stops after one
generator and one evaluator call, while an always-`GOOD` evaluator
exhausts the budget with exactly 4 generator calls and still terminates
successfully. -/
theorem evaluator_optimizer_props_wit :
    evaluator_optimizer genW evExc min_rating max_refinements "go"
      = ⟨1, 1, Except.ok ("draft", Rating.EXCELLENT)⟩ ∧
    (evaluator_optimizer genW evGood min_rating max_refinements "go").genCalls = 4 ∧
    isOkE (evaluator_optimizer genW evGood min_rating max_refinements "go").result = true := by
  have hsub : ∀ c r fb, evGood c = Except.ok (r, fb) → ¬ min_rating.rank ≤ r.rank := by
    intro c r fb hc
    have h1 : (Rating.GOOD, "needs work") = (r, fb) := by injection hc
    have h2 : Rating.GOOD = r := congrArg Prod.fst h1
    rw [← h2]
    decide
  have h := (evaluator_optimizer_props genW evGood min_rating max_refinements "go").2.2
    (fun _ => rfl) (fun _ => rfl) hsub
  exact ⟨(evaluator_optimizer_props genW evExc min_rating max_refinements "go").2.1
          "draft" Rating.EXCELLENT "great" rfl rfl (by decide),
         h.1, h.2.2⟩

end A2A
